import Mathlib

/-!
Shallow embedding of the Perun payment-channel validation engine
(src/src/types.rs) and proofs of its specified properties.

The source file defines the value types of a Perun state channel (Params,
State, FullySignedState, RegisteredState) together with the validation,
dispute and settlement logic.  Cryptographic primitives (the SHA-512 digest
behind `Hash::digest` and ed25519 `verify_strict` behind
`State::validate_sig`) are pure functions of their byte inputs that the
engine only consumes through their results, so the development is parametric
in a `Crypto` record holding them.  Machine integers (`u64` timestamps and
durations) are modelled as naturals with explicit reduction modulo 2^64 where
the source performs fixed-width arithmetic; the candid `Nat` amounts are
arbitrary-precision and modelled as plain naturals.
-/

set_option autoImplicit false

namespace Perun

/-- Byte sequences, modelled as lists of naturals. -/
abbrev Bytes := List Nat

/-- Output size in bytes of the hash function (`Sha512` in the source). -/
def hashOutputSize : Nat := 64

/-- Embeds `Hash`: a digest of the hash function, used both as a content hash
and as an opaque identifier.  The 64-byte length invariant is established by
the deserializer, not by the type itself, mirroring the source where `Hash`
wraps a fixed-size array filled by construction. -/
abbrev Hash := Bytes

/-- Embeds the type alias `ChannelId = Hash`. -/
abbrev ChannelId := Hash

/-- Embeds the type alias `Nonce = Hash`. -/
abbrev Nonce := Hash

/-- Embeds `Duration = u64` (nanoseconds); values of interest are below 2^64. -/
abbrev Duration := Nat

/-- Embeds `Timestamp = u64` (nanoseconds); values of interest are below 2^64. -/
abbrev Timestamp := Nat

/-- Embeds `Version = u64`. -/
abbrev Version := Nat

/-- Embeds `Amount = candid::Nat`: arbitrary-precision natural number. -/
abbrev Amount := Nat

/-- Modulus of `u64` arithmetic. -/
def u64Mod : Nat := 2 ^ 64

/-- Embeds `L2Account`: an ed25519 public key, identified by its canonical
32-byte encoding.  The engine never inspects the key beyond passing it to
signature verification. -/
structure L2Account where
  bytes : Bytes
deriving DecidableEq, Inhabited, Repr

/-- Embeds `L2Signature`: opaque ed25519 signature bytes. -/
structure L2Signature where
  bytes : Bytes
deriving DecidableEq, Inhabited, Repr

/-- The cryptographic primitives the engine delegates to: `Hash::digest`
(SHA-512 over a byte string) and `PublicKey::verify_strict` (ed25519
verification of a signature by a public key over a byte string).  Both are
pure functions of their inputs in the source; the engine uses only their
results, so every theorem below is parametric in them. -/
structure Crypto where
  digest : Bytes → Hash
  verify : Bytes → L2Signature → L2Account → Bool

/-- Embeds the error enum used by `types.rs` (declared in `src/error.rs`,
which is not among the given sources; the variants are exactly those named by
the uses in `types.rs` and by the spec's error taxonomy).  Modelled from the
spec: `require!(cond, Kind)` evaluates `cond` and returns
`Err(Error::Kind)` early when it is false. -/
inductive Error where
  | InvalidInput
  | Authentication
  | NotFinalized
deriving DecidableEq, Repr

/-- Outcome of a Rust function returning `CanisterResult` when, in addition
to `Ok` and `Err`, a runtime panic (such as an out-of-bounds index) is
possible.  The `panicked` outcome lets the embedding state that the panic
branch of `FullySignedState::validate` is unreachable. -/
inductive RunResult (α : Type) where
  | ok (a : α)
  | fail (e : Error)
  | panicked
deriving DecidableEq, Repr

/-- Embeds `Params`: the immutable parameters of a Perun channel. -/
structure Params where
  nonce : Nonce
  participants : List L2Account
  challenge_duration : Duration
deriving DecidableEq, Repr

/-- Embeds `State`: the mutable state of a Perun channel. -/
structure State where
  channel : ChannelId
  version : Version
  allocation : List Amount
  finalized : Bool
deriving DecidableEq, Repr

/-- Embeds `FullySignedState`: a channel state with one signature per
participant, in the order of the parameters' participant list. -/
structure FullySignedState where
  state : State
  sigs : List L2Signature
deriving DecidableEq, Repr

/-- Embeds `RegisteredState`: a state registered by `conclude` or `dispute`,
with the challenge timeout. -/
structure RegisteredState where
  state : State
  timeout : Timestamp
deriving DecidableEq, Repr

/-- Canonical byte encoding of a list, length-prefixed, as the candid wire
format prefixes sequences with their length. -/
def encodeList {α : Type} (enc : α → Bytes) (xs : List α) : Bytes :=
  xs.length :: (xs.map enc).flatten

/-- Canonical byte encoding of a `State` as produced by `Encode!(self)` in
`State::validate_sig`: fields in declaration order, sequences
length-prefixed.  The engine passes these bytes whole to the crypto
primitives and never inspects them, so the candid byte layout is modelled by
a fixed order-preserving encoding of the state's fields. -/
def encodeState (s : State) : Bytes :=
  encodeList (fun b => [b]) s.channel ++ [s.version]
    ++ encodeList (fun a => [a]) s.allocation
    ++ [if s.finalized then 1 else 0]

/-- Canonical byte encoding of `Params` as produced by `Encode!(self)` in
`Params::id`: fields in declaration order, sequences length-prefixed. -/
def encodeParams (p : Params) : Bytes :=
  encodeList (fun b => [b]) p.nonce
    ++ encodeList L2Account.bytes p.participants
    ++ [p.challenge_duration]

/-- Embeds `Params::id`: the channel identifier is the digest of the
canonical encoding of the parameters. -/
def Params.id (c : Crypto) (p : Params) : ChannelId :=
  c.digest (encodeParams p)

/-- Embeds `State::validate_sig`: encode the state canonically and verify
the signature by the given account over those bytes; `Authentication` error
when verification fails. -/
def State.validate_sig (c : Crypto) (s : State) (sig : L2Signature)
    (pk : L2Account) : Except Error Unit :=
  if c.verify (encodeState s) sig pk then .ok () else .error .Authentication

/-- Embeds `State::total`: fold addition over the allocation starting from
the default amount (zero). -/
def State.total (s : State) : Amount :=
  s.allocation.foldl (fun x y => x + y) 0

/-- Embeds `State::may_be_underfunded`: true exactly for version zero and
not finalized. -/
def State.may_be_underfunded (s : State) : Bool :=
  s.version == 0 && !s.finalized

/-- The signature-check loop of `FullySignedState::validate`: for each
participant, in participant order and carrying the running index `i`, check
`sigs[i]` (a panic when the index is out of bounds) against that
participant, stopping at the first failure. -/
def checkSigs (c : Crypto) (s : State) (sigs : List L2Signature) :
    List L2Account → Nat → RunResult Unit
  | [], _ => .ok ()
  | pk :: pks, i =>
    match sigs[i]? with
    | none => .panicked
    | some sig =>
      match s.validate_sig c sig pk with
      | .error e => .fail e
      | .ok () => checkSigs c s sigs pks (i + 1)

/-- Embeds `FullySignedState::validate`: require the channel id to match the
parameters' id, the signature count to match the participant count, the
signature count to match the allocation count (each failing with
`InvalidInput`, in that order), then check every participant's signature in
participant order. -/
def FullySignedState.validate (c : Crypto) (fss : FullySignedState)
    (p : Params) : RunResult Unit :=
  if fss.state.channel = Params.id c p then
    if fss.sigs.length = p.participants.length then
      if fss.sigs.length = fss.state.allocation.length then
        checkSigs c fss.state fss.sigs p.participants 0
      else .fail .InvalidInput
    else .fail .InvalidInput
  else .fail .InvalidInput

/-- Embeds `FullySignedState::validate_final`: require the state to be
finalized (failing with `NotFinalized`), then delegate to `validate`. -/
def FullySignedState.validate_final (c : Crypto) (fss : FullySignedState)
    (p : Params) : RunResult Unit :=
  if fss.state.finalized then fss.validate c p else .fail .NotFinalized

/-- Embeds `RegisteredState::conclude`: require `validate_final` to succeed,
then register the state with the default (zero) timeout. -/
def RegisteredState.conclude (c : Crypto) (fss : FullySignedState)
    (p : Params) : RunResult RegisteredState :=
  match fss.validate_final c p with
  | .ok () => .ok ⟨fss.state, 0⟩
  | .fail e => .fail e
  | .panicked => .panicked

/-- Embeds `RegisteredState::dispute`: require `validate` to succeed, then
register the state with timeout `now + challenge_duration`, a fixed-width
`u64` addition and hence reduced modulo 2^64. -/
def RegisteredState.dispute (c : Crypto) (fss : FullySignedState)
    (p : Params) (now : Timestamp) : RunResult RegisteredState :=
  match fss.validate c p with
  | .ok () => .ok ⟨fss.state, (now + p.challenge_duration) % u64Mod⟩
  | .fail e => .fail e
  | .panicked => .panicked

/-- Embeds `RegisteredState::settled`: the state is settled when it is
finalized or the timeout has been reached. -/
def RegisteredState.settled (r : RegisteredState) (now : Timestamp) : Bool :=
  r.state.finalized || decide (r.timeout ≤ now)

/-- Decoding-time error surface of the manual `Deserialize`
implementations. -/
inductive DecodeError where
  | invalidLength (got : Nat)
deriving DecidableEq, Repr

/-- Embeds the manual `Deserialize` implementation for `Hash`: accept a byte
sequence exactly when its length equals the hash function's output size;
reject any other length with a length error. -/
def Hash.deserialize (bytes : Bytes) : Except DecodeError Hash :=
  if bytes.length = hashOutputSize then .ok bytes
  else .error (.invalidLength bytes.length)

/-! Helper lemmas about the signature-check loop. -/

theorem checkSigs_no_panic (c : Crypto) (s : State) (sigs : List L2Signature)
    (pks : List L2Account) (i : Nat) (hlen : i + pks.length ≤ sigs.length) :
    checkSigs c s sigs pks i = .ok () ∨
      checkSigs c s sigs pks i = .fail .Authentication := by
  induction pks generalizing i with
  | nil => exact Or.inl rfl
  | cons pk pks ih =>
    have hi : i < sigs.length := by simp only [List.length_cons] at hlen; omega
    rw [checkSigs, List.getElem?_eq_getElem hi]
    by_cases hv : c.verify (encodeState s) sigs[i] pk
    · simp only [State.validate_sig, hv, if_true]
      exact ih (i + 1) (by simp only [List.length_cons] at hlen; omega)
    · simp only [State.validate_sig, hv, if_false]
      exact Or.inr rfl

theorem checkSigs_ok_iff (c : Crypto) (s : State) (sigs : List L2Signature)
    (pks : List L2Account) (i : Nat) (hlen : i + pks.length ≤ sigs.length) :
    checkSigs c s sigs pks i = .ok () ↔
      ∀ j, j < pks.length →
        c.verify (encodeState s) (sigs.getD (i + j) default)
          (pks.getD j default) = true := by
  induction pks generalizing i with
  | nil => simp [checkSigs]
  | cons pk pks ih =>
    have hi : i < sigs.length := by simp only [List.length_cons] at hlen; omega
    rw [checkSigs, List.getElem?_eq_getElem hi]
    by_cases hv : c.verify (encodeState s) sigs[i] pk
    · simp only [State.validate_sig, hv, if_true]
      rw [ih (i + 1) (by simp only [List.length_cons] at hlen; omega)]
      constructor
      · intro h j hj
        cases j with
        | zero =>
          rw [Nat.add_zero, List.getD_eq_getElem sigs default hi]
          exact hv
        | succ j' =>
          have hj' : j' < pks.length := by
            simp only [List.length_cons] at hj; omega
          have := h j' hj'
          rw [show i + 1 + j' = i + (j' + 1) from by omega] at this
          simpa using this
      · intro h j hj
        have := h (j + 1) (by simp only [List.length_cons]; omega)
        rw [show i + (j + 1) = i + 1 + j from by omega] at this
        simpa using this
    · simp only [State.validate_sig, hv, if_false]
      constructor
      · intro h; cases h
      · intro h
        have h0 := h 0 (by simp)
        rw [Nat.add_zero, List.getD_eq_getElem sigs default hi] at h0
        simp only [List.getD] at h0
        exact absurd h0 hv

/-- Under the length check performed by `validate`, the loop is entered with
index 0 and all bounds are satisfied. -/
theorem validate_eq_checkSigs (c : Crypto) (fss : FullySignedState) (p : Params)
    (h1 : fss.state.channel = Params.id c p)
    (h2 : fss.sigs.length = p.participants.length)
    (h3 : fss.sigs.length = fss.state.allocation.length) :
    fss.validate c p = checkSigs c fss.state fss.sigs p.participants 0 := by
  unfold FullySignedState.validate
  rw [if_pos h1, if_pos h2, if_pos h3]

theorem validate_fail_structural (c : Crypto) (fss : FullySignedState)
    (p : Params)
    (h : fss.state.channel ≠ Params.id c p ∨
      fss.sigs.length ≠ p.participants.length ∨
      fss.sigs.length ≠ fss.state.allocation.length) :
    fss.validate c p = .fail .InvalidInput := by
  unfold FullySignedState.validate
  rcases h with h | h | h
  · simp [h]
  · by_cases h1 : fss.state.channel = Params.id c p <;> simp [h1, h]
  · by_cases h1 : fss.state.channel = Params.id c p
    · rw [if_pos h1]
      by_cases h2 : fss.sigs.length = p.participants.length
      · rw [if_pos h2, if_neg h]
      · rw [if_neg h2]
    · rw [if_neg h1]

theorem validate_final_ok_iff (c : Crypto) (fss : FullySignedState)
    (p : Params) :
    fss.validate_final c p = .ok () ↔
      fss.state.finalized = true ∧ fss.validate c p = .ok () := by
  unfold FullySignedState.validate_final
  cases hf : fss.state.finalized <;> simp

theorem conclude_ok_iff (c : Crypto) (fss : FullySignedState) (p : Params)
    (r : RegisteredState) :
    RegisteredState.conclude c fss p = .ok r ↔
      fss.validate_final c p = .ok () ∧ r = ⟨fss.state, 0⟩ := by
  unfold RegisteredState.conclude
  cases hv : fss.validate_final c p with
  | ok a => cases a; simp [eq_comm]
  | fail e => simp
  | panicked => simp

theorem dispute_ok_iff (c : Crypto) (fss : FullySignedState) (p : Params)
    (now : Timestamp) (r : RegisteredState) :
    RegisteredState.dispute c fss p now = .ok r ↔
      fss.validate c p = .ok () ∧
        r = ⟨fss.state, (now + p.challenge_duration) % u64Mod⟩ := by
  unfold RegisteredState.dispute
  cases hv : fss.validate c p with
  | ok a => cases a; simp [eq_comm]
  | fail e => simp
  | panicked => simp

/-! Concrete fixtures used by the witness theorems. -/

/-- Test crypto primitives whose verification always accepts. -/
def cT : Crypto := ⟨fun _ => [], fun _ _ _ => true⟩

/-- Test crypto primitives whose verification always rejects. -/
def cF : Crypto := ⟨fun _ => [], fun _ _ _ => false⟩

/-- Test parameters: two participants, challenge duration 100. -/
def pW : Params := ⟨[], [⟨[1]⟩, ⟨[2]⟩], 100⟩

/-- Test state matching `pW` under `cT`, not finalized. -/
def stW : State := ⟨[], 1, [5, 7], false⟩

/-- Test signed state over `stW` with one signature per participant. -/
def fssW : FullySignedState := ⟨stW, [⟨[3]⟩, ⟨[4]⟩]⟩

/-- Test state matching `pW` under `cT`, finalized. -/
def stF : State := ⟨[], 2, [5, 7], true⟩

/-- Test signed state over `stF` with one signature per participant. -/
def fssF : FullySignedState := ⟨stF, [⟨[3]⟩, ⟨[4]⟩]⟩

/-- Test parameters with an empty participant list. -/
def pE : Params := ⟨[], [], 7⟩

/-- Test signed state matching `pE` under `cF`: empty signatures, empty
allocation, finalized. -/
def fssE : FullySignedState := ⟨⟨[], 0, [], true⟩, []⟩

/-! Claim theorems. -/

/-- C1: `FullySignedState::validate` succeeds exactly when the state's
channel id equals the parameters' id, the signature count equals the
participant count, the signature count equals the allocation count, and every
signature verifies against the corresponding participant over the canonical
encoding of the state; any of the three structural mismatches fails with
`InvalidInput` before any signature is checked, and a failing signature
(checked in participant order) fails with `Authentication`. -/
theorem validate_spec (c : Crypto) (fss : FullySignedState) (p : Params) :
    (fss.validate c p = .ok () ↔
      fss.state.channel = Params.id c p ∧
      fss.sigs.length = p.participants.length ∧
      fss.sigs.length = fss.state.allocation.length ∧
      ∀ i, i < p.participants.length →
        c.verify (encodeState fss.state) (fss.sigs.getD i default)
          (p.participants.getD i default) = true) ∧
    ((fss.state.channel ≠ Params.id c p ∨
        fss.sigs.length ≠ p.participants.length ∨
        fss.sigs.length ≠ fss.state.allocation.length) →
      fss.validate c p = .fail .InvalidInput) ∧
    (fss.state.channel = Params.id c p →
      fss.sigs.length = p.participants.length →
      fss.sigs.length = fss.state.allocation.length →
      (∃ i, i < p.participants.length ∧
        c.verify (encodeState fss.state) (fss.sigs.getD i default)
          (p.participants.getD i default) = false) →
      fss.validate c p = .fail .Authentication) := by
  refine ⟨⟨?_, ?_⟩, validate_fail_structural c fss p, ?_⟩
  · intro h
    by_cases h1 : fss.state.channel = Params.id c p
    · by_cases h2 : fss.sigs.length = p.participants.length
      · by_cases h3 : fss.sigs.length = fss.state.allocation.length
        · rw [validate_eq_checkSigs c fss p h1 h2 h3,
            checkSigs_ok_iff c fss.state fss.sigs p.participants 0
              (by omega)] at h
          exact ⟨h1, h2, h3, fun i hi => by simpa using h i hi⟩
        · rw [validate_fail_structural c fss p (Or.inr (Or.inr h3))] at h
          cases h
      · rw [validate_fail_structural c fss p (Or.inr (Or.inl h2))] at h
        cases h
    · rw [validate_fail_structural c fss p (Or.inl h1)] at h
      cases h
  · rintro ⟨h1, h2, h3, hall⟩
    rw [validate_eq_checkSigs c fss p h1 h2 h3,
      checkSigs_ok_iff c fss.state fss.sigs p.participants 0 (by omega)]
    intro j hj
    simpa using hall j hj
  · rintro h1 h2 h3 ⟨i, hi, hbad⟩
    rw [validate_eq_checkSigs c fss p h1 h2 h3]
    rcases checkSigs_no_panic c fss.state fss.sigs p.participants 0
        (by omega) with hok | hfail
    · rw [checkSigs_ok_iff c fss.state fss.sigs p.participants 0
        (by omega)] at hok
      have := hok i hi
      rw [Nat.zero_add] at this
      rw [this] at hbad
      cases hbad
    · exact hfail

/-- Witness for C1: on the two-participant fixture with an always-accepting
verifier, `validate` succeeds; with an always-rejecting verifier it fails
with `Authentication`; and with a mismatched channel id it fails with
`InvalidInput`. -/
theorem validate_spec_witness :
    fssW.validate cT pW = .ok () ∧
      fssW.validate cF pW = .fail .Authentication ∧
      (FullySignedState.mk ⟨[9], 1, [5, 7], false⟩ fssW.sigs).validate cT pW =
        .fail .InvalidInput :=
  ⟨(validate_spec cT fssW pW).1.mpr (by decide),
    (validate_spec cF fssW pW).2.2 (by decide) (by decide) (by decide)
      ⟨0, by decide, by decide⟩,
    (validate_spec cT ⟨⟨[9], 1, [5, 7], false⟩, fssW.sigs⟩ pW).2.1
      (Or.inl (by decide))⟩

/-- C2: `FullySignedState::validate_final` succeeds exactly when the state is
finalized and `validate` succeeds; a non-finalized state fails with
`NotFinalized` (this check runs before `validate`, so it is the reported
error even when `validate` would also fail). -/
theorem validate_final_spec (c : Crypto) (fss : FullySignedState)
    (p : Params) :
    (fss.validate_final c p = .ok () ↔
      fss.state.finalized = true ∧ fss.validate c p = .ok ()) ∧
    (fss.state.finalized = false →
      fss.validate_final c p = .fail .NotFinalized) := by
  refine ⟨validate_final_ok_iff c fss p, ?_⟩
  intro hf
  unfold FullySignedState.validate_final
  rw [hf]
  rfl

/-- Witness for C2: the non-finalized fixture fails with `NotFinalized` even
under the always-rejecting verifier, for which `validate` would also fail. -/
theorem validate_final_spec_witness :
    fssW.validate_final cF pW = .fail .NotFinalized :=
  (validate_final_spec cF fssW pW).2 rfl

/-- C10: the indexing `self.sigs[i]` inside `FullySignedState::validate` is
always in bounds thanks to the earlier length check, so `validate` is total:
on every input it returns `Ok` or one of the two error kinds, and the panic
outcome is unreachable regardless of the relative lengths of the signature,
participant and allocation lists. -/
theorem validate_total (c : Crypto) (fss : FullySignedState) (p : Params) :
    fss.validate c p = .ok () ∨
      fss.validate c p = .fail .InvalidInput ∨
      fss.validate c p = .fail .Authentication := by
  by_cases h1 : fss.state.channel = Params.id c p
  · by_cases h2 : fss.sigs.length = p.participants.length
    · by_cases h3 : fss.sigs.length = fss.state.allocation.length
      · rw [validate_eq_checkSigs c fss p h1 h2 h3]
        rcases checkSigs_no_panic c fss.state fss.sigs p.participants 0
            (by omega) with h | h
        · exact Or.inl h
        · exact Or.inr (Or.inr h)
      · exact Or.inr (Or.inl (validate_fail_structural c fss p
          (Or.inr (Or.inr h3))))
    · exact Or.inr (Or.inl (validate_fail_structural c fss p
        (Or.inr (Or.inl h2))))
  · exact Or.inr (Or.inl (validate_fail_structural c fss p (Or.inl h1)))

/-- C3: `RegisteredState::conclude` succeeds exactly when `validate_final`
succeeds, and every registered state it produces carries the signed state
unchanged, has timeout zero, and is settled at every timestamp, including
zero. -/
theorem conclude_spec (c : Crypto) (fss : FullySignedState) (p : Params) :
    ((∃ r, RegisteredState.conclude c fss p = .ok r) ↔
      fss.validate_final c p = .ok ()) ∧
    (∀ r, RegisteredState.conclude c fss p = .ok r →
      r.state = fss.state ∧ r.timeout = 0 ∧ ∀ t, r.settled t = true) := by
  constructor
  · constructor
    · rintro ⟨r, hr⟩
      exact ((conclude_ok_iff c fss p r).mp hr).1
    · intro hv
      exact ⟨⟨fss.state, 0⟩, (conclude_ok_iff c fss p _).mpr ⟨hv, rfl⟩⟩
  · intro r hr
    obtain ⟨-, hr⟩ := (conclude_ok_iff c fss p r).mp hr
    subst hr
    exact ⟨rfl, rfl, fun t => by simp [RegisteredState.settled]⟩

/-- Witness for C3: concluding the finalized two-participant fixture
succeeds, and the resulting registered state is settled at time zero. -/
theorem conclude_spec_witness :
    RegisteredState.conclude cT fssF pW = .ok ⟨fssF.state, 0⟩ ∧
      (RegisteredState.mk fssF.state 0).settled 0 = true :=
  ⟨by decide,
    ((conclude_spec cT fssF pW).2 ⟨fssF.state, 0⟩ (by decide)).2.2 0⟩

/-- C4 counterexample: `dispute` at `now = 2^64 - 100` with challenge
duration 100 stores timeout `0`, not the mathematical sum
`now + challenge_duration = 2^64`, because the `u64` addition wraps. -/
theorem dispute_timeout_cex :
    RegisteredState.dispute cT fssW pW (u64Mod - 100) =
        .ok ⟨fssW.state, 0⟩ ∧
      (0 : Nat) ≠ (u64Mod - 100) + pW.challenge_duration := by
  constructor
  · decide
  · decide

/-- C4 (amended): `RegisteredState::dispute` succeeds exactly when
`validate` succeeds (the state need not be finalized), and every registered
state it produces carries the signed state unchanged and has timeout
`(now + challenge_duration) mod 2^64` — equal to the mathematical sum
whenever that sum does not overflow `u64` — and, when the state is not
finalized, is settled exactly at the timestamps at or after that timeout. -/
theorem dispute_spec (c : Crypto) (fss : FullySignedState) (p : Params)
    (t : Timestamp) :
    ((∃ r, RegisteredState.dispute c fss p t = .ok r) ↔
      fss.validate c p = .ok ()) ∧
    (∀ r, RegisteredState.dispute c fss p t = .ok r →
      r.state = fss.state ∧
      r.timeout = (t + p.challenge_duration) % u64Mod ∧
      (t + p.challenge_duration < u64Mod →
        r.timeout = t + p.challenge_duration) ∧
      (fss.state.finalized = false →
        ∀ t', (t' < r.timeout → r.settled t' = false) ∧
          (r.timeout ≤ t' → r.settled t' = true))) := by
  constructor
  · constructor
    · rintro ⟨r, hr⟩
      exact ((dispute_ok_iff c fss p t r).mp hr).1
    · intro hv
      exact ⟨_, (dispute_ok_iff c fss p t _).mpr ⟨hv, rfl⟩⟩
  · intro r hr
    obtain ⟨-, hr⟩ := (dispute_ok_iff c fss p t r).mp hr
    subst hr
    refine ⟨rfl, rfl, fun hlt => Nat.mod_eq_of_lt hlt, fun hfin t' => ?_⟩
    constructor
    · intro ht
      simp [RegisteredState.settled, hfin, Nat.not_le.mpr ht]
    · intro ht
      simp [RegisteredState.settled, hfin, ht]

/-- Witness for C4: disputing the non-finalized two-participant fixture at
time 1000 with challenge duration 100 yields timeout 1100, not settled at
1099, settled at 1100. -/
theorem dispute_spec_witness :
    RegisteredState.dispute cT fssW pW 1000 = .ok ⟨fssW.state, 1100⟩ ∧
      (RegisteredState.mk fssW.state 1100).settled 1099 = false ∧
      (RegisteredState.mk fssW.state 1100).settled 1100 = true := by
  have h : RegisteredState.dispute cT fssW pW 1000 =
      .ok ⟨fssW.state, 1100⟩ := by decide
  have h2 := (dispute_spec cT fssW pW 1000).2 ⟨fssW.state, 1100⟩ h
  exact ⟨h, (h2.2.2.2 rfl 1099).1 (by decide), (h2.2.2.2 rfl 1100).2 (by decide)⟩

/-- C5: `RegisteredState::settled` is true exactly when the state is
finalized or the given time has reached the timeout; in particular a
finalized state is settled at every time. -/
theorem settled_spec (r : RegisteredState) (now : Timestamp) :
    (r.settled now = true ↔
      (r.state.finalized = true ∨ r.timeout ≤ now)) ∧
    (r.state.finalized = true → ∀ t, r.settled t = true) := by
  constructor
  · simp [RegisteredState.settled]
  · intro h t
    simp [RegisteredState.settled, h]

/-- Witness for C5: a finalized registered state with a far-future timeout is
settled at time zero. -/
theorem settled_spec_witness :
    (RegisteredState.mk stF 999999).settled 0 = true :=
  (settled_spec ⟨stF, 999999⟩ 0).2 rfl 0

/-- Arithmetic of a wrapping addition just past the modulus: with both
summands below `m` and their sum at least `m`, reduction modulo `m`
subtracts `m` once. -/
theorem add_mod_of_overflow (a b m : Nat) (hm : m ≤ a + b)
    (hab : a + b < m + m) : (a + b) % m = a + b - m := by
  rw [Nat.mod_eq_sub_mod hm, Nat.mod_eq_of_lt (by omega)]

/-- With the second summand below `m` and the sum at least `m`, subtracting
`m` from the sum lands strictly below the first summand. -/
theorem add_sub_mod_lt (a b m : Nat) (hb : b < m) (hm : m ≤ a + b) :
    a + b - m < a := by
  omega

/-- C6: when the mathematical sum `now + challenge_duration` exceeds the
largest `u64` value, the timeout stored by `dispute` is that sum reduced
modulo 2^64, which is strictly less than `now`, so the freshly disputed
non-finalized state is already settled at registration time instead of
opening a challenge window. -/
theorem dispute_overflow_spec (c : Crypto) (fss : FullySignedState)
    (p : Params) (now : Timestamp) (r : RegisteredState)
    (hnow : now < u64Mod) (hd : p.challenge_duration < u64Mod)
    (hover : u64Mod ≤ now + p.challenge_duration)
    (hok : RegisteredState.dispute c fss p now = .ok r)
    (hfin : fss.state.finalized = false) :
    r.timeout = (now + p.challenge_duration) % u64Mod ∧
      r.timeout < now ∧ r.settled now = true := by
  obtain ⟨-, hr⟩ := (dispute_ok_iff c fss p now r).mp hok
  subst hr
  have hmod : (now + p.challenge_duration) % u64Mod =
      now + p.challenge_duration - u64Mod :=
    add_mod_of_overflow now p.challenge_duration u64Mod hover
      (Nat.add_lt_add hnow hd)
  have hlt : (now + p.challenge_duration) % u64Mod < now := by
    rw [hmod]
    exact add_sub_mod_lt now p.challenge_duration u64Mod hd hover
  refine ⟨rfl, hlt, ?_⟩
  simp [RegisteredState.settled, hfin, Nat.le_of_lt hlt]

/-- Witness for C6: disputing the non-finalized fixture at `now = 2^64 - 1`
with challenge duration 100 stores timeout 99, below `now`, and the record is
settled immediately. -/
theorem dispute_overflow_spec_witness :
    (99 : Nat) < u64Mod - 1 ∧
      (RegisteredState.mk fssW.state 99).settled (u64Mod - 1) = true := by
  have h := dispute_overflow_spec cT fssW pW (u64Mod - 1) ⟨fssW.state, 99⟩
    (by decide) (by decide) (by decide) (by decide) rfl
  exact ⟨h.2.1, h.2.2⟩

/-- C7: `State::total` equals the exact mathematical sum of the allocation
entries — amounts are arbitrary-precision naturals, so no overflow or
truncation can occur — and in particular it is zero for the empty
allocation. -/
theorem total_spec (s : State) :
    s.total = s.allocation.sum ∧ (s.allocation = [] → s.total = 0) := by
  have key : ∀ (l : List Nat) (a : Nat),
      l.foldl (fun x y => x + y) a = a + l.sum := by
    intro l
    induction l with
    | nil => intro a; simp
    | cons x xs ih =>
      intro a
      rw [List.foldl_cons, List.sum_cons, ih]
      omega
  have h : s.total = s.allocation.sum := by
    unfold State.total
    rw [key]
    exact Nat.zero_add _
  exact ⟨h, fun he => by rw [h, he]; rfl⟩

/-- Witness for C7: a concrete three-entry allocation sums exactly, and the
empty allocation totals zero. -/
theorem total_spec_witness :
    (State.mk [] 1 [3, 4, 5] false).total = [3, 4, 5].sum ∧
      (State.mk [] 0 [] false).total = 0 :=
  ⟨(total_spec ⟨[], 1, [3, 4, 5], false⟩).1,
    (total_spec ⟨[], 0, [], false⟩).2 rfl⟩

/-- C8: deserializing a `Hash` succeeds exactly when the byte sequence is 64
bytes long (the hash function's output size); every successfully constructed
hash holds exactly 64 bytes, and any other length is rejected with a length
error. -/
theorem hash_deserialize_spec (bytes : Bytes) :
    ((∃ h, Hash.deserialize bytes = .ok h) ↔
      bytes.length = hashOutputSize) ∧
    (∀ h, Hash.deserialize bytes = .ok h → h.length = hashOutputSize) ∧
    (bytes.length ≠ hashOutputSize →
      Hash.deserialize bytes = .error (.invalidLength bytes.length)) := by
  unfold Hash.deserialize
  by_cases hl : bytes.length = hashOutputSize
  · rw [if_pos hl]
    refine ⟨⟨fun _ => hl, fun _ => ⟨bytes, rfl⟩⟩, ?_, fun hne => absurd hl hne⟩
    intro h hh
    cases hh
    exact hl
  · rw [if_neg hl]
    refine ⟨⟨?_, fun he => absurd he hl⟩, ?_, fun _ => rfl⟩
    · rintro ⟨h, hh⟩
      cases hh
    · intro h hh
      cases hh

/-- Witness for C8: a 64-byte sequence deserializes, and a 3-byte sequence
is rejected with its length reported. -/
theorem hash_deserialize_spec_witness :
    (∃ h, Hash.deserialize (List.replicate 64 0) = .ok h) ∧
      Hash.deserialize [1, 2, 3] = .error (.invalidLength 3) :=
  ⟨(hash_deserialize_spec (List.replicate 64 0)).1.mpr (by decide),
    (hash_deserialize_spec [1, 2, 3]).2.2 (by decide)⟩

/-- C9: `validate` does not require a non-empty participant list: with empty
participants, empty signatures, empty allocation and a matching channel id
it succeeds without verifying a single signature (the verifier `c.verify` is
arbitrary here, so the result holds even for one that always rejects), and
`dispute` accepts such a state at any time while `conclude` accepts it
whenever it is finalized. -/
theorem validate_empty_participants (c : Crypto) (p : Params)
    (fss : FullySignedState)
    (hp : p.participants = []) (hs : fss.sigs = [])
    (ha : fss.state.allocation = [])
    (hc : fss.state.channel = Params.id c p) :
    fss.validate c p = .ok () ∧
    (∀ t, RegisteredState.dispute c fss p t =
      .ok ⟨fss.state, (t + p.challenge_duration) % u64Mod⟩) ∧
    (fss.state.finalized = true →
      RegisteredState.conclude c fss p = .ok ⟨fss.state, 0⟩) := by
  have hv : fss.validate c p = .ok () := by
    rw [validate_eq_checkSigs c fss p hc (by rw [hs, hp]; rfl)
      (by rw [hs, ha]; rfl), hp]
    rfl
  refine ⟨hv, ?_, ?_⟩
  · intro t
    exact (dispute_ok_iff c fss p t _).mpr ⟨hv, rfl⟩
  · intro hf
    exact (conclude_ok_iff c fss p _).mpr
      ⟨(validate_final_ok_iff c fss p).mpr ⟨hf, hv⟩, rfl⟩

/-- Witness for C9: the empty-participants fixture is accepted by `validate`
and `conclude` even under the always-rejecting verifier. -/
theorem validate_empty_participants_witness :
    fssE.validate cF pE = .ok () ∧
      RegisteredState.conclude cF fssE pE = .ok ⟨fssE.state, 0⟩ := by
  have h := validate_empty_participants cF pE fssE rfl rfl rfl (by decide)
  exact ⟨h.1, h.2.2 rfl⟩

end Perun
